import Mathlib

/-!
# Verification of the `auto_prepare` preprocessing pipeline

Shallow embedding of `src/auto_prepare.py`: a two-phase tabular
preprocessing pipeline that fits imputation / encoding / feature-selection
logic on a bounded sample and replays it over the full dataset in chunks.

Tables are modelled column-wise.  A cell is either missing (`none`) or a
numeric / string value; a column carries the pandas dtype tag used by
`select_dtypes`.  Exact rationals stand for floats.  External library
calls are embedded from their documented semantics:
`sklearn.impute.SimpleImputer` statistics, `sklearn.preprocessing`
`OrdinalEncoder` / `OneHotEncoder` / `LabelEncoder` (categories are the
sorted distinct observed values, as computed by `numpy.unique`),
single-feature `LinearRegression` + `r2_score` as ordinary least squares,
and `mutual_info_regression` (a deterministic numeric estimator under the
fixed `random_state=42`) as an explicit function parameter `miF`.

The run is modelled as an event trace (which transformers were fitted,
whether the writer was opened, which chunks were written) together with a
result: an error (the `ValueError`s of the source, classified by the
spec's error kinds), an early return with empty feature selection, or the
list of written output chunks.
-/

/-- A cell of a table: missing (`NaN`/null), a numeric value, or a string. -/
abbrev Cell := Option (ℚ ⊕ String)

/-- The pandas dtype tag of a column, as used by `select_dtypes`:
numeric (`np.number`), categorical (`object`/`category`), or any other
dtype (neither numeric nor categorical). -/
inductive Dtype
  | num
  | cat
  | other
deriving DecidableEq

/-- A column: its dtype together with its cells, in row order. -/
structure Col where
  dtype : Dtype
  vals : List Cell
deriving DecidableEq

/-- A dataset / dataframe: named columns in order. -/
abbrev Dataset := List (String × Col)

/-- Numeric content of a cell (`None` for missing or non-numeric). -/
def cellNum (c : Cell) : Option ℚ :=
  match c with
  | some (Sum.inl q) => some q
  | _ => none

/-- String content of a non-missing cell of a categorical column
(the `astype(str)` view used for target label-encoding). -/
def cellStr (c : Cell) : String :=
  match c with
  | some (Sum.inr s) => s
  | _ => ""

/-- `fillna("Missing")` on one cell of a categorical column: nulls become
the literal sentinel string `"Missing"`. -/
def fillCell (c : Cell) : String :=
  match c with
  | some (Sum.inr s) => s
  | _ => "Missing"

/-- Cells of the column named `nm` (empty when absent):
`df[nm]` of the source. -/
def getCol (d : Dataset) (nm : String) : List Cell :=
  ((List.lookup nm d).map Col.vals).getD []

/-- `df.select_dtypes(include=[np.number])` restricted to the feature
frame: the numeric columns, in order, as `Option ℚ` lists. -/
def numColsOf (X : Dataset) : List (String × List (Option ℚ)) :=
  X.filterMap (fun p =>
    if p.2.dtype = Dtype.num then some (p.1, p.2.vals.map cellNum) else none)

/-- `df.select_dtypes(include=['object','category'])` restricted to the
feature frame: the categorical columns, in order. -/
def catColsOf (X : Dataset) : List (String × List Cell) :=
  X.filterMap (fun p =>
    if p.2.dtype = Dtype.cat then some (p.1, p.2.vals) else none)

/-- `input_dataset.get_dataframe(sampling='head', limit=n)`: the first
`n` rows of every column. -/
def sampleOf (input : Dataset) (n : ℕ) : Dataset :=
  input.map (fun p => (p.1, ⟨p.2.dtype, p.2.vals.take n⟩))

/-- Arithmetic mean of a list of rationals (0 on the empty list, which the
pipeline never hits for an observed column). -/
def qmean (l : List ℚ) : ℚ :=
  if l.length = 0 then 0 else l.sum / (l.length : ℚ)

/-- `np.median` of a list: middle element of the sorted list, or the
average of the two middle elements. -/
def qmedian (l : List ℚ) : ℚ :=
  let s := List.insertionSort (· ≤ ·) l
  let m := s.length
  if m = 0 then 0
  else if m % 2 = 1 then s.getD (m / 2) 0
  else (s.getD (m / 2 - 1) 0 + s.getD (m / 2) 0) / 2

/-- `most_frequent` statistic of `SimpleImputer`: the smallest value among
those of maximal multiplicity. -/
def qmode (l : List ℚ) : ℚ :=
  let sorted := List.insertionSort (· ≤ ·) l.dedup
  sorted.foldl (fun best v => if l.count best < l.count v then v else best)
    (sorted.headD 0)

/-- The four imputation strategies accepted by `SimpleImputer` as used by
`auto_prepare` (`fill_value` defaults to 0 for `constant`). -/
inductive ImputeStrategy
  | mean
  | median
  | mostFrequent
  | constant
deriving DecidableEq

/-- `SimpleImputer.fit` on one numeric column: the fill statistic computed
from the non-missing sample values. -/
def fitStat (s : ImputeStrategy) (vs : List (Option ℚ)) : ℚ :=
  let obs := vs.filterMap id
  match s with
  | ImputeStrategy.mean => qmean obs
  | ImputeStrategy.median => qmedian obs
  | ImputeStrategy.mostFrequent => qmode obs
  | ImputeStrategy.constant => 0

/-- `SimpleImputer.transform` on one numeric column: missing values are
replaced by the fitted statistic. -/
def imputeCol (stat : ℚ) (vs : List (Option ℚ)) : List ℚ :=
  vs.map (fun v => v.getD stat)

/-- Strict comparison of characters by code point. -/
def charLtB (c d : Char) : Bool :=
  Nat.blt c.toNat d.toNat

/-- Lexicographic comparison of character lists (Python's / numpy's string
order, by code point). -/
def charListLeB : List Char → List Char → Bool
  | [], _ => true
  | _ :: _, [] => false
  | c :: cs, d :: ds =>
    if charLtB c d then true
    else if charLtB d c then false
    else charListLeB cs ds

/-- `a ≤ b` on strings, by code point. -/
def strLeB (a b : String) : Bool :=
  charListLeB a.data b.data

/-- `a < b` on strings: the strict companion of `strLeB`. -/
def strLtB (a b : String) : Bool :=
  ! strLeB b a

/-- Sorted insertion of a string into a list sorted by `strLeB`. -/
def orderedInsertStr (s : String) : List String → List String
  | [] => [s]
  | t :: ts => if strLeB s t then s :: t :: ts else t :: orderedInsertStr s ts

/-- Insertion sort of strings by `strLeB`. -/
def sortStrs : List String → List String
  | [] => []
  | s :: ss => orderedInsertStr s (sortStrs ss)

/-- `np.unique` on strings: the sorted list of distinct values.  This is
how the sklearn encoders derive their category lists. -/
def sortedUnique (l : List String) : List String :=
  sortStrs l.dedup

/-- `OrdinalEncoder` with `handle_unknown='use_encoded_value',
unknown_value=-1` on one value: the index of the value in the fitted
category list, `-1` for a value not seen at fit time. -/
def ordinalEncodeVal (cats : List String) (v : String) : ℚ :=
  if v ∈ cats then ((cats.indexOf v : ℕ) : ℚ) else -1

/-- Ordinal (label-strategy) transform of one categorical column: nulls
become `"Missing"`, then every value is mapped through the fitted
category index table. -/
def labelEncodeColumn (cats : List String) (vals : List Cell) : List ℚ :=
  (vals.map fillCell).map (ordinalEncodeVal cats)

/-- One indicator column of the one-hot transform (`handle_unknown =
'ignore'`): 1 where the filled value equals the fitted category `c`,
0 elsewhere — in particular 0 everywhere for values unseen at fit time. -/
def oneHotColumn (c : String) (vals : List Cell) : List ℚ :=
  (vals.map fillCell).map (fun v => if v = c then (1 : ℚ) else 0)

/-- `OneHotEncoder.get_feature_names_out`: per fitted column, one output
name `col_category` per fitted category, in fit order. -/
def oneHotNames (fitted : List (String × List String)) : List String :=
  (fitted.map (fun p => p.2.map (fun c => p.1 ++ "_" ++ c))).flatten

/-- The categorical transform applied to a chunk: `encoder.transform` on
the chunk's categorical columns (after `fillna("Missing")`), labelled
with the fit-time output column names.  `fitted` holds, per categorical
column, the category list learned from the sample. -/
def encodeChunkCols (es : String) (fitted : List (String × List String))
    (chunk : Dataset) : List (String × List ℚ) :=
  if es = "label" then
    fitted.map (fun p => (p.1, labelEncodeColumn p.2 (getCol chunk p.1)))
  else if es = "onehot" then
    (fitted.map (fun p =>
      p.2.map (fun c => (p.1 ++ "_" ++ c, oneHotColumn c (getCol chunk p.1))))).flatten
  else []

/-- Boolean valid-target mask `y.notna()`. -/
def validMask (yvals : List Cell) : List Bool :=
  yvals.map Option.isSome

/-- `df.loc[mask]` on one column: keep the entries whose mask bit is true. -/
def applyMask (mask : List Bool) (xs : List α) : List α :=
  (List.zip mask xs).filterMap (fun p => if p.1 then some p.2 else none)

/-- The target vector used for feature scoring.  A numeric target is used
as-is; a non-numeric target is passed through `LabelEncoder` on its
string form, i.e. every value is replaced by its index in the sorted
list of distinct values (`numpy.unique` order). -/
def evalTarget (dt : Dtype) (yvalid : List Cell) : List ℚ :=
  match dt with
  | Dtype.num => yvalid.map (fun c => (cellNum c).getD 0)
  | _ =>
    let strs := yvalid.map cellStr
    let cls := sortedUnique strs
    strs.map (fun s => ((cls.indexOf s : ℕ) : ℚ))

/-- Predictions of a single-feature `LinearRegression` fitted on
`(xs, ys)`: ordinary least squares `a + b·x` (for a constant feature the
minimum-norm solution has slope 0 — in `ℚ` the division `0/0 = 0`
produces exactly that). -/
def linregPredict (xs ys : List ℚ) : List ℚ :=
  let xbar := qmean xs
  let ybar := qmean ys
  let sxx := (xs.map (fun x => (x - xbar) * (x - xbar))).sum
  let sxy := (List.zipWith (fun x y => (x - xbar) * (y - ybar)) xs ys).sum
  let b := sxy / sxx
  let a := ybar - b * xbar
  xs.map (fun x => a + b * x)

/-- `sklearn.metrics.r2_score`: `1 - SSres/SStot`, with the degenerate
constant-target case handled as sklearn does (1 for a perfect fit,
0 otherwise). -/
def r2Score (yt yp : List ℚ) : ℚ :=
  let ybar := qmean yt
  let sst := (yt.map (fun y => (y - ybar) * (y - ybar))).sum
  let ssr := (List.zipWith (fun t p => (t - p) * (t - p)) yt yp).sum
  if sst = 0 then (if ssr = 0 then 1 else 0) else 1 - ssr / sst

/-- The R2 value the selection loop computes for one feature: fit a
single-variable linear model on the valid-target rows and score its
predictions against the target. -/
def featureR2 (xs ys : List ℚ) : ℚ :=
  r2Score ys (linregPredict xs ys)

/-- Per-feature record of the selection loop: name, R2 score, the
mutual-information score when it was computed, and the keep decision. -/
structure FeatScore where
  name : String
  r2 : ℚ
  mi : Option ℚ
  keep : Bool
deriving DecidableEq

/-- One iteration of the selection loop of `auto_prepare`: compute R2;
retain outright when it reaches `r2T`, otherwise compute the mutual
information (`miF`, standing for `mutual_info_regression` with its fixed
seed) and retain when it reaches `miT`. -/
def scoreFeature (miF : List ℚ → List ℚ → ℚ) (r2T miT : ℚ) (y : List ℚ)
    (nm : String) (xs : List ℚ) : FeatScore :=
  let r2 := featureR2 xs y
  if r2T ≤ r2 then ⟨nm, r2, none, true⟩
  else
    let m := miF xs y
    ⟨nm, r2, some m, decide (miT ≤ m)⟩

/-- The full selection loop over the columns of `X_eval`. -/
def selectFeatures (miF : List ℚ → List ℚ → ℚ) (r2T miT : ℚ)
    (Xeval : List (String × List ℚ)) (y : List ℚ) : List FeatScore :=
  Xeval.map (fun p => scoreFeature miF r2T miT y p.1 p.2)

/-- `selected_features`: the names appended by the loop, i.e. those whose
record carries `keep = true`. -/
def selectedNames (scores : List FeatScore) : List String :=
  scores.filterMap (fun f => if f.keep then some f.name else none)

/-- The error kinds of the run, classifying the `ValueError`s the source
raises: target column absent (`SchemaError`), unrecognized encoding
strategy (`ConfigError`), no valid target rows in the evaluation frame
(`DataError`). -/
inductive RunError
  | schemaError
  | configError
  | dataError
deriving DecidableEq

/-- Observable events of a run, in order: fitting the imputer, fitting
the encoder, opening the output writer, writing one chunk of the given
row count. -/
inductive Event
  | fitImputer
  | fitEncoder
  | openWriter
  | writeChunk (rows : ℕ)
deriving DecidableEq

/-- The row count a writer event contributes (`None` for non-write
events). -/
def rowsWritten : Event → Option ℕ
  | Event.writeChunk n => some n
  | _ => none

/-- The state fitted on the sample and replayed over every chunk:
target name, encoding strategy, the imputation statistics per numeric
column, the category lists per categorical column, the fit-time encoded
output names, and the retained feature names. -/
structure Pipeline where
  target : String
  strategy : String
  stats : List (String × ℚ)
  cats : List (String × List String)
  encodedNames : List String
  selected : List String
deriving DecidableEq

/-- One written output chunk: the selected feature columns followed by
the reattached original target cells. -/
structure OutChunk where
  feats : List (String × List ℚ)
  target : List Cell
deriving DecidableEq

/-- Result of a run: a raised error, the early return taken when no
feature is retained (a warning is printed, nothing is raised), or normal
completion with the written chunks. -/
inductive RunResult
  | error (e : RunError)
  | emptySelection
  | done (out : List OutChunk)
deriving DecidableEq

/-- The encoder-fitting step (2) of `auto_prepare` on the sample's
categorical columns: per column the sorted distinct filled values become
the category list; returns the fitted category lists, the encoded output
feature names, and the encoded sample columns.  With no categorical
columns nothing is fitted and the strategy name is never examined;
an unrecognized strategy raises (`ConfigError`). -/
def fitEncoderPart (es : String) (categorical : List (String × List Cell)) :
    Except RunError
      (List (String × List String) × List String × List (String × List ℚ)) :=
  if categorical.isEmpty then Except.ok ([], [], [])
  else if es = "label" then
    Except.ok
      (categorical.map (fun p => (p.1, sortedUnique (p.2.map fillCell))),
       categorical.map Prod.fst,
       categorical.map (fun p =>
         (p.1, labelEncodeColumn (sortedUnique (p.2.map fillCell)) p.2)))
  else if es = "onehot" then
    Except.ok
      (categorical.map (fun p => (p.1, sortedUnique (p.2.map fillCell))),
       oneHotNames (categorical.map (fun p => (p.1, sortedUnique (p.2.map fillCell)))),
       (categorical.map (fun p =>
         (sortedUnique (p.2.map fillCell)).map (fun c =>
           (p.1 ++ "_" ++ c, oneHotColumn c p.2)))).flatten)
  else Except.error RunError.configError

/-- Steps (3)(4) of `auto_prepare`: restrict the processed sample to the
valid-target rows; raise (`DataError`) when the evaluation frame is empty
— which pandas' `.empty` makes true as soon as it has zero columns or
zero rows; otherwise run the selection loop against the (possibly
label-encoded) target. -/
def featureSelectPart (miF : List ℚ → List ℚ → ℚ) (r2T miT : ℚ)
    (Xproc : List (String × List ℚ)) (mask : List Bool)
    (ydt : Dtype) (yvals : List Cell) : Except RunError (List FeatScore) :=
  let Xeval := Xproc.map (fun p => (p.1, applyMask mask p.2))
  if Xeval.isEmpty ∨ mask.count true = 0 then Except.error RunError.dataError
  else Except.ok (selectFeatures miF r2T miT Xeval (evalTarget ydt (applyMask mask yvals)))

/-- The fitting phase of `auto_prepare` (steps 1–4 of the source), with
its event trace: read the head sample, check the target column
(`SchemaError` when absent), split numeric / categorical features, fit
the imputer (when numeric columns exist), fit the encoder (when
categorical columns exist; `ConfigError` on an unknown strategy), then
run feature selection on the concatenated processed sample
(`DataError` on an empty evaluation frame). -/
def fitPhase (miF : List ℚ → List ℚ → ℚ) (input : Dataset) (t : String)
    (ist : ImputeStrategy) (es : String) (r2T miT : ℚ) (sl : ℕ) :
    List Event × Except RunError Pipeline :=
  let df := sampleOf input sl
  match List.lookup t df with
  | none => ([], Except.error RunError.schemaError)
  | some ycol =>
    let Xs := df.filter (fun p => p.1 ≠ t)
    let numeric := numColsOf Xs
    let categorical := catColsOf Xs
    let ev1 : List Event := if numeric.isEmpty then [] else [Event.fitImputer]
    let stats := numeric.map (fun p => (p.1, fitStat ist p.2))
    let XsNum : List (String × List ℚ) :=
      numeric.map (fun p => (p.1, imputeCol (fitStat ist p.2) p.2))
    match fitEncoderPart es categorical with
    | Except.error e => (ev1, Except.error e)
    | Except.ok (cats, encNames, XsCat) =>
      let ev2 := ev1 ++ (if categorical.isEmpty then [] else [Event.fitEncoder])
      match featureSelectPart miF r2T miT (XsNum ++ XsCat)
              (validMask ycol.vals) ycol.dtype ycol.vals with
      | Except.error e => (ev2, Except.error e)
      | Except.ok scores =>
        (ev2, Except.ok ⟨t, es, stats, cats, encNames, selectedNames scores⟩)

/-- The transform applied to one chunk (step 5 of the source): split off
the target, impute the numeric columns with the fitted statistics,
encode the categorical columns with the fitted categories, select the
retained feature columns, and reattach the original target cells. -/
def transformChunk (pipe : Pipeline) (chunk : Dataset) : OutChunk :=
  let ychunk := getCol chunk pipe.target
  let Xchunk := chunk.filter (fun p => p.1 ≠ pipe.target)
  let Xnum : List (String × List ℚ) :=
    pipe.stats.map (fun p => (p.1, imputeCol p.2 ((getCol Xchunk p.1).map cellNum)))
  let Xcat := encodeChunkCols pipe.strategy pipe.cats Xchunk
  let processed := Xnum ++ Xcat
  ⟨pipe.selected.map (fun nm => (nm, (List.lookup nm processed).getD [])), ychunk⟩

/-- Drop the first `k` rows of every column. -/
def dsDrop (k : ℕ) (d : Dataset) : Dataset :=
  d.map (fun p => (p.1, ⟨p.2.dtype, p.2.vals.drop k⟩))

/-- Keep the first `k` rows of every column. -/
def dsTake (k : ℕ) (d : Dataset) : Dataset :=
  d.map (fun p => (p.1, ⟨p.2.dtype, p.2.vals.take k⟩))

/-- `iter_dataframes(chunksize=cs)`: split the dataset's `n` rows into
successive chunks of at most `cs` rows, fuelled by `f ≥ n`. -/
def dsChunksF : ℕ → ℕ → ℕ → Dataset → List Dataset
  | 0, _, _, _ => []
  | f + 1, cs, n, d =>
    if n = 0 then []
    else dsTake cs d :: dsChunksF f cs (n - cs) (dsDrop cs d)

/-- The chunks of a dataset with `n` rows. -/
def dsChunks (cs n : ℕ) (d : Dataset) : List Dataset :=
  dsChunksF n cs n d

/-- The whole `auto_prepare` run: the fitting phase, then — unless an
error was raised or the retained feature set came out empty (early
return) — the chunked transform phase, opening the writer and writing
every transformed chunk. -/
def auto_prepare (miF : List ℚ → List ℚ → ℚ) (input : Dataset) (t : String)
    (ist : ImputeStrategy) (es : String) (r2T miT : ℚ) (sl cs : ℕ) :
    List Event × RunResult :=
  match fitPhase miF input t ist es r2T miT sl with
  | (evs, Except.error e) => (evs, RunResult.error e)
  | (evs, Except.ok pipe) =>
    if pipe.selected.isEmpty then (evs, RunResult.emptySelection)
    else
      let n := (getCol input pipe.target).length
      let outs := (dsChunks cs n input).map (transformChunk pipe)
      (evs ++ Event.openWriter :: outs.map (fun o => Event.writeChunk o.target.length),
       RunResult.done outs)

/-- Modelled from the spec: label encoding of the scoring target "by
first-seen order" — every value is replaced by the index of its first
occurrence among the distinct values in order of first appearance.
(Stated only to be compared against `evalTarget`, which embeds what the
code actually does.) -/
def firstSeenOrder : List String → List String
  | [] => []
  | s :: rest => s :: (firstSeenOrder rest).filter (fun x => x ≠ s)

/-- Modelled from the spec: the first-seen-order label encoding of a
string target vector. -/
def firstSeenLabelEncode (strs : List String) : List ℚ :=
  strs.map (fun s => (((firstSeenOrder strs).indexOf s : ℕ) : ℚ))

/-! ## Helper lemmas -/

theorem scoreFeature_name (miF : List ℚ → List ℚ → ℚ) (r2T miT : ℚ)
    (y : List ℚ) (nm : String) (xs : List ℚ) :
    (scoreFeature miF r2T miT y nm xs).name = nm := by
  by_cases h : r2T ≤ featureR2 xs y <;> simp [scoreFeature, h]

theorem scoreFeature_r2 (miF : List ℚ → List ℚ → ℚ) (r2T miT : ℚ)
    (y : List ℚ) (nm : String) (xs : List ℚ) :
    (scoreFeature miF r2T miT y nm xs).r2 = featureR2 xs y := by
  by_cases h : r2T ≤ featureR2 xs y <;> simp [scoreFeature, h]

theorem scoreFeature_keep_mono (miF : List ℚ → List ℚ → ℚ) {t1 t2 t1' t2' : ℚ}
    (y : List ℚ) (nm : String) (xs : List ℚ) (h1 : t1 ≤ t1') (h2 : t2 ≤ t2')
    (hk : (scoreFeature miF t1' t2' y nm xs).keep = true) :
    (scoreFeature miF t1 t2 y nm xs).keep = true := by
  unfold scoreFeature at hk ⊢
  by_cases hA : t1' ≤ featureR2 xs y
  · have hB : t1 ≤ featureR2 xs y := le_trans h1 hA
    simp [hB]
  · rw [if_neg hA] at hk
    simp only [decide_eq_true_eq] at hk
    by_cases hB : t1 ≤ featureR2 xs y
    · simp [hB]
    · simp only [if_neg hB, decide_eq_true_eq]
      exact le_trans h2 hk

/-! ## Claims C5–C8: the selection rule and the fitted encoder -/

/-- C5: a candidate feature is retained iff its R2 score reaches
`r2T`, or its R2 score is below `r2T` and its mutual-information score
reaches `miT`; and the mutual-information score is computed (recorded)
exactly when the R2 branch fails, never unconditionally. -/
theorem selectFeatures_keep_iff (miF : List ℚ → List ℚ → ℚ) (r2T miT : ℚ)
    (Xeval : List (String × List ℚ)) (y : List ℚ) (f : FeatScore)
    (hf : f ∈ selectFeatures miF r2T miT Xeval y) :
    (f.keep = true ↔ (r2T ≤ f.r2 ∨ (f.r2 < r2T ∧ ∃ m, f.mi = some m ∧ miT ≤ m)))
    ∧ (f.mi ≠ none ↔ f.r2 < r2T) := by
  rcases List.mem_map.1 hf with ⟨p, _, rfl⟩
  unfold scoreFeature
  by_cases h : r2T ≤ featureR2 p.2 y
  · simp [h, not_lt.2 h]
  · simp [h, not_le.1 h, not_le]

/-- Witness for C5 at a concrete feature: `x = [1,2]` against
`y = [1,2]` has R2 = 1, is retained through the R2 branch, and its
mutual information is not computed. -/
theorem selectFeatures_keep_iff_witness :
    (⟨"x", 1, none, true⟩ : FeatScore)
        ∈ selectFeatures (fun _ _ => 0) 1 1 [("x", [1, 2])] [1, 2]
    ∧ (((⟨"x", 1, none, true⟩ : FeatScore).keep = true
        ↔ ((1:ℚ) ≤ (⟨"x", 1, none, true⟩ : FeatScore).r2
           ∨ ((⟨"x", 1, none, true⟩ : FeatScore).r2 < 1
              ∧ ∃ m, (⟨"x", 1, none, true⟩ : FeatScore).mi = some m ∧ (1:ℚ) ≤ m)))
       ∧ ((⟨"x", 1, none, true⟩ : FeatScore).mi ≠ none
          ↔ (⟨"x", 1, none, true⟩ : FeatScore).r2 < 1)) := by
  have heq : selectFeatures (fun _ _ => (0:ℚ)) 1 1 [("x", [1, 2])] [1, 2]
      = [⟨"x", 1, none, true⟩] := by
    with_unfolding_all rfl
  have hmem : (⟨"x", 1, none, true⟩ : FeatScore)
      ∈ selectFeatures (fun _ _ => (0:ℚ)) 1 1 [("x", [1, 2])] [1, 2] := by
    rw [heq]
    exact List.mem_singleton_self _
  exact ⟨hmem, selectFeatures_keep_iff (fun _ _ => (0:ℚ)) 1 1 [("x", [1, 2])] [1, 2] _ hmem⟩

/-- C6: a categorical value seen during transform but absent from the
fitted category list (after null-to-"Missing" substitution) is mapped to
`-1` by the fitted ordinal encoder — while every known category maps to
a nonnegative index, so `-1` never collides — and to 0 in every
indicator column of its group by the fitted one-hot encoder, for every
chunk column and every row position. -/
theorem unknown_category_encodes (cats : List String) (vals : List Cell)
    (i : ℕ) (v : String)
    (hv : (vals.map fillCell)[i]? = some v) (hnv : v ∉ cats) :
    (labelEncodeColumn cats vals)[i]? = some (-1)
    ∧ (∀ w ∈ cats, 0 ≤ ordinalEncodeVal cats w)
    ∧ (∀ c ∈ cats, (oneHotColumn c vals)[i]? = some 0) := by
  refine ⟨?_, ?_, ?_⟩
  · unfold labelEncodeColumn
    rw [List.getElem?_map, hv]
    simp [ordinalEncodeVal, hnv]
  · intro w hw
    simp [ordinalEncodeVal, hw]
  · intro c hc
    unfold oneHotColumn
    rw [List.getElem?_map, hv]
    have hvc : v ≠ c := fun h => hnv (h ▸ hc)
    simp [hvc]

/-- Witness for C6: with fitted categories `{Osaka, Tokyo}`, the unseen
value "Nagoya" ordinal-encodes to -1 and one-hot-encodes to 0 in both
indicator columns. -/
theorem unknown_category_encodes_witness :
    ([(some (Sum.inr "Nagoya") : Cell)].map fillCell)[0]? = some "Nagoya"
    ∧ "Nagoya" ∉ ["Osaka", "Tokyo"]
    ∧ (labelEncodeColumn ["Osaka", "Tokyo"] [some (Sum.inr "Nagoya")])[0]? = some ((-1 : ℚ))
    ∧ (∀ w ∈ ["Osaka", "Tokyo"], 0 ≤ ordinalEncodeVal ["Osaka", "Tokyo"] w)
    ∧ (∀ c ∈ ["Osaka", "Tokyo"],
        (oneHotColumn c [some (Sum.inr "Nagoya")])[0]? = some 0) := by
  have h1 : ([(some (Sum.inr "Nagoya") : Cell)].map fillCell)[0]? = some "Nagoya" := rfl
  have h2 : "Nagoya" ∉ ["Osaka", "Tokyo"] := by decide
  have h := unknown_category_encodes ["Osaka", "Tokyo"] [some (Sum.inr "Nagoya")] 0 "Nagoya" h1 h2
  exact ⟨h1, h2, h.1, h.2.1, h.2.2⟩

/-- C7: the set and order of the output columns of the fitted encoder is
fixed at fit time: for every chunk, the label-strategy transform emits
exactly the fitted categorical column names, and the one-hot transform
emits exactly the fit-time `col_category` indicator names — independent
of the chunk's contents. -/
theorem encoder_columns_fixed (fitted : List (String × List String)) (chunk : Dataset) :
    (encodeChunkCols "label" fitted chunk).map Prod.fst = fitted.map Prod.fst
    ∧ (encodeChunkCols "onehot" fitted chunk).map Prod.fst = oneHotNames fitted := by
  constructor
  · simp [encodeChunkCols]
  · have hne : ("onehot" : String) ≠ "label" := by decide
    unfold encodeChunkCols
    rw [if_neg hne, if_pos rfl]
    simp only [oneHotNames, List.map_flatten, List.map_map]
    refine congrArg List.flatten (List.map_congr_left ?_)
    intro p _
    simp [List.map_map, Function.comp]

/-- C8: feature retention is antitone in the two thresholds: raising
`r2_threshold` and `mi_threshold` can only shrink (or preserve) the set
of retained feature names, for a fixed sample. -/
theorem selection_antitone (miF : List ℚ → List ℚ → ℚ)
    (Xeval : List (String × List ℚ)) (y : List ℚ) (t1 t2 t1' t2' : ℚ)
    (h1 : t1 ≤ t1') (h2 : t2 ≤ t2') (nm : String)
    (hm : nm ∈ selectedNames (selectFeatures miF t1' t2' Xeval y)) :
    nm ∈ selectedNames (selectFeatures miF t1 t2 Xeval y) := by
  simp only [selectedNames, selectFeatures, List.mem_filterMap, List.mem_map] at hm ⊢
  rcases hm with ⟨f, ⟨p, hp, rfl⟩, hkeep⟩
  have hk : (scoreFeature miF t1' t2' y p.1 p.2).keep = true := by
    by_contra hc
    rw [Bool.not_eq_true] at hc
    rw [if_neg (by simp [hc])] at hkeep
    exact Option.noConfusion hkeep
  have hname : nm = p.1 := by
    rw [if_pos hk] at hkeep
    have := Option.some.inj hkeep
    rw [← this, scoreFeature_name]
  refine ⟨scoreFeature miF t1 t2 y p.1 p.2, ⟨p, hp, rfl⟩, ?_⟩
  rw [if_pos (scoreFeature_keep_mono miF y p.1 p.2 h1 h2 hk), scoreFeature_name, hname]

/-- Witness for C8: tightening both thresholds from (0, 0) to (2, 1)
keeps membership only where it already held; here the feature `x`
retained under the tighter pair is also retained under the looser pair. -/
theorem selection_antitone_witness :
    (0:ℚ) ≤ 1 ∧ (0:ℚ) ≤ 1
    ∧ "x" ∈ selectedNames (selectFeatures (fun _ _ => (0:ℚ)) 1 1 [("x", [1, 2])] [1, 2])
    ∧ "x" ∈ selectedNames (selectFeatures (fun _ _ => (0:ℚ)) 0 0 [("x", [1, 2])] [1, 2]) := by
  have hm : "x" ∈ selectedNames (selectFeatures (fun _ _ => (0:ℚ)) 1 1 [("x", [1, 2])] [1, 2]) := by
    have heq : selectedNames (selectFeatures (fun _ _ => (0:ℚ)) 1 1 [("x", [1, 2])] [1, 2])
        = ["x"] := by with_unfolding_all rfl
    rw [heq]
    exact List.mem_singleton_self _
  exact ⟨by norm_num, by norm_num, hm,
    selection_antitone (fun _ _ => (0:ℚ)) [("x", [1, 2])] [1, 2] 0 0 1 1
      (by norm_num) (by norm_num) "x" hm⟩

/-! ## Structure of the fitting phase -/

theorem mem_ite_nil_singleton {e x : Event} {c : Prop} [Decidable c]
    (he : e ∈ if c then ([] : List Event) else [x]) : e = x := by
  split at he
  · simp at he
  · simpa using he

theorem fitPhase_events (miF : List ℚ → List ℚ → ℚ) (input : Dataset) (t : String)
    (ist : ImputeStrategy) (es : String) (r2T miT : ℚ) (sl : ℕ) (e : Event)
    (he : e ∈ (fitPhase miF input t ist es r2T miT sl).1) :
    e = Event.fitImputer ∨ e = Event.fitEncoder := by
  simp only [fitPhase] at he
  cases hl : List.lookup t (sampleOf input sl) with
  | none =>
    rw [hl] at he
    simp at he
  | some ycol =>
    rw [hl] at he
    simp only [] at he
    cases henc : fitEncoderPart es
        (catColsOf ((sampleOf input sl).filter (fun p => p.1 ≠ t))) with
    | error err =>
      rw [henc] at he
      exact Or.inl (mem_ite_nil_singleton he)
    | ok trip =>
      obtain ⟨cats, encNames, XsCat⟩ := trip
      rw [henc] at he
      simp only [] at he
      cases hsel : featureSelectPart miF r2T miT
          ((numColsOf ((sampleOf input sl).filter (fun p => p.1 ≠ t))).map
              (fun p => (p.1, imputeCol (fitStat ist p.2) p.2)) ++ XsCat)
          (validMask ycol.vals) ycol.dtype ycol.vals with
      | error err =>
        rw [hsel] at he
        rcases List.mem_append.1 he with h | h
        · exact Or.inl (mem_ite_nil_singleton h)
        · exact Or.inr (mem_ite_nil_singleton h)
      | ok scores =>
        rw [hsel] at he
        rcases List.mem_append.1 he with h | h
        · exact Or.inl (mem_ite_nil_singleton h)
        · exact Or.inr (mem_ite_nil_singleton h)

theorem fitPhase_ok_target (miF : List ℚ → List ℚ → ℚ) (input : Dataset) (t : String)
    (ist : ImputeStrategy) (es : String) (r2T miT : ℚ) (sl : ℕ)
    (evs : List Event) (pipe : Pipeline)
    (hfit : fitPhase miF input t ist es r2T miT sl = (evs, Except.ok pipe)) :
    pipe.target = t := by
  simp only [fitPhase] at hfit
  cases hl : List.lookup t (sampleOf input sl) with
  | none =>
    rw [hl] at hfit
    simp at hfit
  | some ycol =>
    rw [hl] at hfit
    simp only [] at hfit
    cases henc : fitEncoderPart es
        (catColsOf ((sampleOf input sl).filter (fun p => p.1 ≠ t))) with
    | error err =>
      rw [henc] at hfit
      simp at hfit
    | ok trip =>
      obtain ⟨cats, encNames, XsCat⟩ := trip
      rw [henc] at hfit
      simp only [] at hfit
      cases hsel : featureSelectPart miF r2T miT
          ((numColsOf ((sampleOf input sl).filter (fun p => p.1 ≠ t))).map
              (fun p => (p.1, imputeCol (fitStat ist p.2) p.2)) ++ XsCat)
          (validMask ycol.vals) ycol.dtype ycol.vals with
      | error err =>
        rw [hsel] at hfit
        simp at hfit
      | ok scores =>
        rw [hsel] at hfit
        have h2 := congrArg Prod.snd hfit
        simp only [] at h2
        have h3 := Except.ok.inj h2
        rw [← h3]

/-! ## Claim C1: empty retained feature set -/

/-- C1, counterexample: a run in which the single feature fails both
thresholds returns normally with the empty-selection early return — it
does not abort with the `DataError` the claim asserts (and a fortiori
with no other error).  The sample has four valid-target rows, so the
mutual-information fallback is well-defined in the source
(`mutual_info_regression` with its default `n_neighbors = 3` needs at
least four samples); `r2_threshold = 2` exceeds the maximum possible
R2 of 1 (here R2 = 16/25), so the MI branch is taken, and
`mi_threshold = 1000` exceeds any value the KSG estimator can return
on four samples, so the feature is dropped whatever the MI estimate
(the embedding instantiates it as 0). -/
theorem empty_selection_cex :
    (auto_prepare (fun _ _ => (0:ℚ))
        [("x", ⟨Dtype.num, [some (Sum.inl 1), some (Sum.inl 2), some (Sum.inl 3),
            some (Sum.inl 4)]⟩),
         ("y", ⟨Dtype.num, [some (Sum.inl 1), some (Sum.inl 2), some (Sum.inl 4),
            some (Sum.inl 3)]⟩)]
        "y" ImputeStrategy.mean "label" 2 1000 10 5)
      = ([Event.fitImputer], RunResult.emptySelection)
    ∧ RunResult.emptySelection ≠ RunResult.error RunError.dataError
    ∧ RunResult.emptySelection ≠ RunResult.error RunError.schemaError
    ∧ RunResult.emptySelection ≠ RunResult.error RunError.configError := by
  exact ⟨by with_unfolding_all rfl, by decide, by decide, by decide⟩

/-- C1, amended: when the retained feature set is empty after
evaluating all candidates, `auto_prepare` does not raise: it prints a
warning and returns early.  No output is produced — the writer is never
opened and no chunk is written (the trace contains only fitting
events). -/
theorem empty_selection_returns_without_error
    (miF : List ℚ → List ℚ → ℚ) (input : Dataset) (t : String) (ist : ImputeStrategy)
    (es : String) (r2T miT : ℚ) (sl cs : ℕ) (evs : List Event) (pipe : Pipeline)
    (hfit : fitPhase miF input t ist es r2T miT sl = (evs, Except.ok pipe))
    (hsel : pipe.selected = []) :
    auto_prepare miF input t ist es r2T miT sl cs = (evs, RunResult.emptySelection)
    ∧ Event.openWriter ∉ evs
    ∧ ∀ n, Event.writeChunk n ∉ evs := by
  have hrun : auto_prepare miF input t ist es r2T miT sl cs
      = (evs, RunResult.emptySelection) := by
    simp only [auto_prepare]
    rw [hfit]
    simp [hsel]
  refine ⟨hrun, ?_, ?_⟩
  · intro hw
    have h := fitPhase_events miF input t ist es r2T miT sl Event.openWriter
      (by rw [hfit]; exact hw)
    rcases h with h | h <;> exact Event.noConfusion h
  · intro n hw
    have h := fitPhase_events miF input t ist es r2T miT sl (Event.writeChunk n)
      (by rw [hfit]; exact hw)
    rcases h with h | h <;> exact Event.noConfusion h

/-- Witness for the amended C1 at the counterexample's run (four
valid-target rows, so the source's mutual-information fallback is
well-defined): the fitting phase retains nothing, the run returns the
empty-selection result, and the trace holds no writer event. -/
theorem empty_selection_returns_without_error_witness :
    fitPhase (fun _ _ => (0:ℚ))
        [("x", ⟨Dtype.num, [some (Sum.inl 1), some (Sum.inl 2), some (Sum.inl 3),
            some (Sum.inl 4)]⟩),
         ("y", ⟨Dtype.num, [some (Sum.inl 1), some (Sum.inl 2), some (Sum.inl 4),
            some (Sum.inl 3)]⟩)]
        "y" ImputeStrategy.mean "label" 2 1000 10
      = ([Event.fitImputer], Except.ok ⟨"y", "label", [("x", 5/2)], [], [], []⟩)
    ∧ auto_prepare (fun _ _ => (0:ℚ))
        [("x", ⟨Dtype.num, [some (Sum.inl 1), some (Sum.inl 2), some (Sum.inl 3),
            some (Sum.inl 4)]⟩),
         ("y", ⟨Dtype.num, [some (Sum.inl 1), some (Sum.inl 2), some (Sum.inl 4),
            some (Sum.inl 3)]⟩)]
        "y" ImputeStrategy.mean "label" 2 1000 10 5
      = ([Event.fitImputer], RunResult.emptySelection)
    ∧ Event.openWriter ∉ [Event.fitImputer]
    ∧ Event.writeChunk 4 ∉ [Event.fitImputer] := by
  have hfit : fitPhase (fun _ _ => (0:ℚ))
      [("x", ⟨Dtype.num, [some (Sum.inl 1), some (Sum.inl 2), some (Sum.inl 3),
          some (Sum.inl 4)]⟩),
       ("y", ⟨Dtype.num, [some (Sum.inl 1), some (Sum.inl 2), some (Sum.inl 4),
          some (Sum.inl 3)]⟩)]
      "y" ImputeStrategy.mean "label" 2 1000 10
      = ([Event.fitImputer], Except.ok ⟨"y", "label", [("x", 5/2)], [], [], []⟩) := by
    with_unfolding_all rfl
  have h := empty_selection_returns_without_error (fun _ _ => (0:ℚ))
    [("x", ⟨Dtype.num, [some (Sum.inl 1), some (Sum.inl 2), some (Sum.inl 3),
        some (Sum.inl 4)]⟩),
     ("y", ⟨Dtype.num, [some (Sum.inl 1), some (Sum.inl 2), some (Sum.inl 4),
        some (Sum.inl 3)]⟩)]
    "y" ImputeStrategy.mean "label" 2 1000 10 5 [Event.fitImputer]
    ⟨"y", "label", [("x", 5/2)], [], [], []⟩ hfit rfl
  exact ⟨hfit, h.1, h.2.1, h.2.2 4⟩

/-! ## Claim C2: sample with no valid target row -/

theorem featureSelectPart_of_no_valid_rows (miF : List ℚ → List ℚ → ℚ)
    (r2T miT : ℚ) (Xproc : List (String × List ℚ)) (mask : List Bool)
    (ydt : Dtype) (yvals : List Cell) (hnov : mask.count true = 0) :
    featureSelectPart miF r2T miT Xproc mask ydt yvals
      = Except.error RunError.dataError := by
  unfold featureSelectPart
  rw [if_pos (Or.inr hnov)]

theorem fitEncoderPart_ok_of_known_strategy (es : String)
    (c : List (String × List Cell))
    (hes : es = "label" ∨ es = "onehot" ∨ c = []) :
    ∃ trip, fitEncoderPart es c = Except.ok trip := by
  by_cases hc : c.isEmpty
  · exact ⟨([], [], []), by unfold fitEncoderPart; rw [if_pos hc]⟩
  · rcases hes with rfl | rfl | rfl
    · exact ⟨(c.map (fun p => (p.1, sortedUnique (p.2.map fillCell))),
              c.map Prod.fst,
              c.map (fun p =>
                (p.1, labelEncodeColumn (sortedUnique (p.2.map fillCell)) p.2))),
        by unfold fitEncoderPart; rw [if_neg hc, if_pos rfl]⟩
    · refine ⟨(c.map (fun p => (p.1, sortedUnique (p.2.map fillCell))),
              oneHotNames (c.map (fun p => (p.1, sortedUnique (p.2.map fillCell)))),
              (c.map (fun p => (sortedUnique (p.2.map fillCell)).map (fun x =>
                (p.1 ++ "_" ++ x, oneHotColumn x p.2)))).flatten), ?_⟩
      unfold fitEncoderPart
      rw [if_neg hc, if_neg (by decide), if_pos rfl]
    · simp at hc

/-- C2, counterexample: a sample whose target column is entirely
missing still fits the imputer and the encoder first — the trace holds
both fitting events when the `DataError` is raised — refuting "raised
before any transformer is fitted". -/
theorem no_valid_target_cex :
    (auto_prepare (fun _ _ => (1:ℚ))
        [("x", ⟨Dtype.num, [some (Sum.inl 1), some (Sum.inl 2)]⟩),
         ("c", ⟨Dtype.cat, [some (Sum.inr "a"), none]⟩),
         ("y", ⟨Dtype.num, [none, none]⟩)]
        "y" ImputeStrategy.mean "label" (5/100) 0 10 5)
      = ([Event.fitImputer, Event.fitEncoder], RunResult.error RunError.dataError) := by
  with_unfolding_all rfl

/-- C2, amended: when no row of the sample has a non-missing target,
`auto_prepare` raises the `DataError` — but only after the imputer and
encoder have been fitted on the sample (the imputer fitting event is in
the trace whenever a numeric column exists), not before; no output is
written (the writer is never opened and no chunk is written). -/
theorem no_valid_target_raises_after_fit (miF : List ℚ → List ℚ → ℚ)
    (input : Dataset) (t : String) (ist : ImputeStrategy) (es : String)
    (r2T miT : ℚ) (sl cs : ℕ) (ycol : Col)
    (hy : List.lookup t (sampleOf input sl) = some ycol)
    (hnov : (validMask ycol.vals).count true = 0)
    (hes : es = "label" ∨ es = "onehot"
           ∨ catColsOf ((sampleOf input sl).filter (fun p => p.1 ≠ t)) = []) :
    (auto_prepare miF input t ist es r2T miT sl cs).2 = RunResult.error RunError.dataError
    ∧ Event.openWriter ∉ (auto_prepare miF input t ist es r2T miT sl cs).1
    ∧ (∀ n, Event.writeChunk n ∉ (auto_prepare miF input t ist es r2T miT sl cs).1)
    ∧ (numColsOf ((sampleOf input sl).filter (fun p => p.1 ≠ t)) ≠ []
       → Event.fitImputer ∈ (auto_prepare miF input t ist es r2T miT sl cs).1) := by
  obtain ⟨trip, henc⟩ := fitEncoderPart_ok_of_known_strategy es
    (catColsOf ((sampleOf input sl).filter (fun p => p.1 ≠ t))) hes
  obtain ⟨cats, encNames, XsCat⟩ := trip
  have key : fitPhase miF input t ist es r2T miT sl
      = ((if (numColsOf ((sampleOf input sl).filter (fun p => p.1 ≠ t))).isEmpty
            then [] else [Event.fitImputer])
          ++ (if (catColsOf ((sampleOf input sl).filter (fun p => p.1 ≠ t))).isEmpty
            then [] else [Event.fitEncoder]),
         Except.error RunError.dataError) := by
    simp only [fitPhase]
    rw [hy]
    simp only []
    rw [henc]
    simp only []
    rw [featureSelectPart_of_no_valid_rows miF r2T miT _ _ _ _ hnov]
  have hrun : auto_prepare miF input t ist es r2T miT sl cs
      = ((if (numColsOf ((sampleOf input sl).filter (fun p => p.1 ≠ t))).isEmpty
            then [] else [Event.fitImputer])
          ++ (if (catColsOf ((sampleOf input sl).filter (fun p => p.1 ≠ t))).isEmpty
            then [] else [Event.fitEncoder]),
         RunResult.error RunError.dataError) := by
    simp only [auto_prepare]
    rw [key]
  rw [hrun]
  refine ⟨rfl, ?_, ?_, ?_⟩
  · intro hw
    rcases List.mem_append.1 hw with h | h <;>
      exact Event.noConfusion (mem_ite_nil_singleton h)
  · intro n hw
    rcases List.mem_append.1 hw with h | h <;>
      exact Event.noConfusion (mem_ite_nil_singleton h)
  · intro hnum
    refine List.mem_append_left _ ?_
    rw [if_neg (by simpa using hnum)]
    exact List.mem_singleton_self _

/-- Witness for the amended C2 at the counterexample's run. -/
theorem no_valid_target_raises_after_fit_witness :
    (auto_prepare (fun _ _ => (1:ℚ))
        [("x", ⟨Dtype.num, [some (Sum.inl 1), some (Sum.inl 2)]⟩),
         ("c", ⟨Dtype.cat, [some (Sum.inr "a"), none]⟩),
         ("y", ⟨Dtype.num, [none, none]⟩)]
        "y" ImputeStrategy.mean "label" (5/100) 0 10 5).2
      = RunResult.error RunError.dataError
    ∧ Event.openWriter ∉ (auto_prepare (fun _ _ => (1:ℚ))
        [("x", ⟨Dtype.num, [some (Sum.inl 1), some (Sum.inl 2)]⟩),
         ("c", ⟨Dtype.cat, [some (Sum.inr "a"), none]⟩),
         ("y", ⟨Dtype.num, [none, none]⟩)]
        "y" ImputeStrategy.mean "label" (5/100) 0 10 5).1
    ∧ Event.writeChunk 2 ∉ (auto_prepare (fun _ _ => (1:ℚ))
        [("x", ⟨Dtype.num, [some (Sum.inl 1), some (Sum.inl 2)]⟩),
         ("c", ⟨Dtype.cat, [some (Sum.inr "a"), none]⟩),
         ("y", ⟨Dtype.num, [none, none]⟩)]
        "y" ImputeStrategy.mean "label" (5/100) 0 10 5).1
    ∧ Event.fitImputer ∈ (auto_prepare (fun _ _ => (1:ℚ))
        [("x", ⟨Dtype.num, [some (Sum.inl 1), some (Sum.inl 2)]⟩),
         ("c", ⟨Dtype.cat, [some (Sum.inr "a"), none]⟩),
         ("y", ⟨Dtype.num, [none, none]⟩)]
        "y" ImputeStrategy.mean "label" (5/100) 0 10 5).1 := by
  have hy : List.lookup "y" (sampleOf
      [("x", ⟨Dtype.num, [some (Sum.inl 1), some (Sum.inl 2)]⟩),
       ("c", ⟨Dtype.cat, [some (Sum.inr "a"), none]⟩),
       ("y", ⟨Dtype.num, [none, none]⟩)] 10) = some ⟨Dtype.num, [none, none]⟩ := by
    with_unfolding_all rfl
  have h := no_valid_target_raises_after_fit (fun _ _ => (1:ℚ))
    [("x", ⟨Dtype.num, [some (Sum.inl 1), some (Sum.inl 2)]⟩),
     ("c", ⟨Dtype.cat, [some (Sum.inr "a"), none]⟩),
     ("y", ⟨Dtype.num, [none, none]⟩)]
    "y" ImputeStrategy.mean "label" (5/100) 0 10 5 ⟨Dtype.num, [none, none]⟩
    hy rfl (Or.inl rfl)
  refine ⟨h.1, h.2.1, h.2.2.1 2, h.2.2.2 ?_⟩
  intro hcontra
  rw [show numColsOf ((sampleOf
      [("x", ⟨Dtype.num, [some (Sum.inl 1), some (Sum.inl 2)]⟩),
       ("c", ⟨Dtype.cat, [some (Sum.inr "a"), none]⟩),
       ("y", ⟨Dtype.num, [none, none]⟩)] 10).filter (fun p => p.1 ≠ "y"))
      = [("x", [some 1, some 2])] from by with_unfolding_all rfl] at hcontra
  exact List.noConfusion hcontra

/-! ## Claim C3: unrecognized encoding strategy -/

theorem featureSelectPart_cases (miF : List ℚ → List ℚ → ℚ) (r2T miT : ℚ)
    (Xproc : List (String × List ℚ)) (mask : List Bool)
    (ydt : Dtype) (yvals : List Cell) :
    featureSelectPart miF r2T miT Xproc mask ydt yvals = Except.error RunError.dataError
    ∨ ∃ scores, featureSelectPart miF r2T miT Xproc mask ydt yvals = Except.ok scores := by
  simp only [featureSelectPart]
  split
  · exact Or.inl rfl
  · exact Or.inr ⟨_, rfl⟩

theorem auto_prepare_error_iff (miF : List ℚ → List ℚ → ℚ) (input : Dataset)
    (t : String) (ist : ImputeStrategy) (es : String) (r2T miT : ℚ) (sl cs : ℕ)
    (e : RunError) :
    (auto_prepare miF input t ist es r2T miT sl cs).2 = RunResult.error e
    ↔ (fitPhase miF input t ist es r2T miT sl).2 = Except.error e := by
  simp only [auto_prepare]
  cases hf : fitPhase miF input t ist es r2T miT sl with
  | mk evs r =>
    cases r with
    | error e2 => simp
    | ok pipe =>
      by_cases hsel : pipe.selected.isEmpty <;> simp [hsel]

theorem fitPhase_snd_cases (miF : List ℚ → List ℚ → ℚ) (input : Dataset)
    (t : String) (ist : ImputeStrategy) (es : String) (r2T miT : ℚ) (sl : ℕ)
    (ycol : Col) (hl : List.lookup t (sampleOf input sl) = some ycol)
    (hes : es = "label" ∨ es = "onehot"
           ∨ catColsOf ((sampleOf input sl).filter (fun p => p.1 ≠ t)) = []) :
    (fitPhase miF input t ist es r2T miT sl).2 = Except.error RunError.dataError
    ∨ ∃ pipe, (fitPhase miF input t ist es r2T miT sl).2 = Except.ok pipe := by
  obtain ⟨⟨cats, encNames, XsCat⟩, henc⟩ := fitEncoderPart_ok_of_known_strategy es
    (catColsOf ((sampleOf input sl).filter (fun p => p.1 ≠ t))) hes
  simp only [fitPhase]
  rw [hl]
  simp only []
  rw [henc]
  simp only []
  rcases featureSelectPart_cases miF r2T miT
      ((numColsOf ((sampleOf input sl).filter (fun p => p.1 ≠ t))).map
          (fun p => (p.1, imputeCol (fitStat ist p.2) p.2)) ++ XsCat)
      (validMask ycol.vals) ycol.dtype ycol.vals with h | ⟨scores, h⟩
  · rw [h]
    exact Or.inl rfl
  · rw [h]
    exact Or.inr ⟨_, rfl⟩

/-- C3, counterexample: with the unrecognized strategy "frequency" but
no categorical column in the sample, `auto_prepare` does not fail with
`ConfigError` — it runs to completion and writes its output. -/
theorem config_error_cex :
    (auto_prepare (fun _ _ => (1:ℚ))
        [("x", ⟨Dtype.num, [some (Sum.inl 1), some (Sum.inl 2)]⟩),
         ("y", ⟨Dtype.num, [some (Sum.inl 1), some (Sum.inl 2)]⟩)]
        "y" ImputeStrategy.mean "frequency" (5/100) 0 10 5)
      = ([Event.fitImputer, Event.openWriter, Event.writeChunk 2],
         RunResult.done [⟨[("x", [1, 2])], [some (Sum.inl 1), some (Sum.inl 2)]⟩])
    ∧ RunResult.done [⟨[("x", [1, 2])], [some (Sum.inl 1), some (Sum.inl 2)]⟩]
        ≠ RunResult.error RunError.configError := by
  exact ⟨by with_unfolding_all rfl, fun h => RunResult.noConfusion h⟩

/-- C3, amended: `auto_prepare` fails with `ConfigError` for an
encoding strategy other than "label" and "onehot" exactly when the
sample has at least one categorical feature column (and a target
column, which is checked first); with no categorical columns the
strategy name is never consulted and no `ConfigError` can arise. -/
theorem config_error_iff (miF : List ℚ → List ℚ → ℚ) (input : Dataset)
    (t : String) (ist : ImputeStrategy) (es : String) (r2T miT : ℚ) (sl cs : ℕ) :
    (auto_prepare miF input t ist es r2T miT sl cs).2 = RunResult.error RunError.configError
    ↔ ((List.lookup t (sampleOf input sl)).isSome
       ∧ catColsOf ((sampleOf input sl).filter (fun p => p.1 ≠ t)) ≠ []
       ∧ es ≠ "label" ∧ es ≠ "onehot") := by
  rw [auto_prepare_error_iff]
  cases hl : List.lookup t (sampleOf input sl) with
  | none =>
    constructor
    · intro h
      simp only [fitPhase] at h
      rw [hl] at h
      simp at h
    · intro h
      simp at h
  | some ycol =>
    by_cases hval : es = "label" ∨ es = "onehot"
        ∨ catColsOf ((sampleOf input sl).filter (fun p => p.1 ≠ t)) = []
    · constructor
      · intro h
        exfalso
        rcases fitPhase_snd_cases miF input t ist es r2T miT sl ycol hl hval
          with h2 | ⟨pipe, h2⟩
        · rw [h2] at h
          simp at h
        · rw [h2] at h
          simp at h
      · intro h
        exfalso
        rcases hval with rfl | rfl | hc
        · exact h.2.2.1 rfl
        · exact h.2.2.2 rfl
        · exact h.2.1 hc
    · push_neg at hval
      obtain ⟨hlab, hoh, hc⟩ := hval
      have hcE : ¬ (catColsOf ((sampleOf input sl).filter (fun p => p.1 ≠ t))).isEmpty := by
        simpa using hc
      have henc : fitEncoderPart es
          (catColsOf ((sampleOf input sl).filter (fun p => p.1 ≠ t)))
          = Except.error RunError.configError := by
        unfold fitEncoderPart
        rw [if_neg hcE, if_neg hlab, if_neg hoh]
      have hfit : (fitPhase miF input t ist es r2T miT sl).2
          = Except.error RunError.configError := by
        simp only [fitPhase]
        rw [hl]
        simp only []
        rw [henc]
      rw [hfit]
      constructor
      · intro _
        exact ⟨rfl, hc, hlab, hoh⟩
      · intro _
        rfl

/-! ## Claim C10: sample with no feature columns -/

/-- C10: when the sample has no feature columns at all (only the target
column), `auto_prepare` raises the no-valid-target `DataError` even
though the target has non-missing rows: the `.empty` check on the
evaluation frame is true as soon as the frame has zero columns, which
conflates "no feature columns" with "no valid target rows". -/
theorem target_only_raises_dataError (miF : List ℚ → List ℚ → ℚ)
    (input : Dataset) (t : String) (ist : ImputeStrategy) (es : String)
    (r2T miT : ℚ) (sl cs : ℕ) (ycol : Col)
    (hy : List.lookup t (sampleOf input sl) = some ycol)
    (hnofeat : (sampleOf input sl).filter (fun p => p.1 ≠ t) = [])
    (hvalid : 0 < (validMask ycol.vals).count true) :
    (auto_prepare miF input t ist es r2T miT sl cs).2
      = RunResult.error RunError.dataError := by
  rw [auto_prepare_error_iff]
  simp only [fitPhase]
  rw [hy]
  simp only []
  rw [hnofeat]
  rfl

/-- Witness for C10: a dataset holding nothing but a target column with
one non-missing value aborts with the no-valid-target error. -/
theorem target_only_raises_dataError_witness :
    List.lookup "y" (sampleOf [("y", ⟨Dtype.num, [some (Sum.inl 1)]⟩)] 10)
      = some ⟨Dtype.num, [some (Sum.inl 1)]⟩
    ∧ (sampleOf [("y", ⟨Dtype.num, [some (Sum.inl 1)]⟩)] 10).filter
        (fun p => p.1 ≠ "y") = []
    ∧ 0 < (validMask (⟨Dtype.num, [some (Sum.inl 1)]⟩ : Col).vals).count true
    ∧ (auto_prepare (fun _ _ => (1:ℚ)) [("y", ⟨Dtype.num, [some (Sum.inl 1)]⟩)]
        "y" ImputeStrategy.mean "label" (5/100) (1/100) 10 5).2
      = RunResult.error RunError.dataError := by
  have h1 : List.lookup "y" (sampleOf [("y", ⟨Dtype.num, [some (Sum.inl 1)]⟩)] 10)
      = some ⟨Dtype.num, [some (Sum.inl 1)]⟩ := by with_unfolding_all rfl
  have h2 : (sampleOf [("y", ⟨Dtype.num, [some (Sum.inl 1)]⟩)] 10).filter
      (fun p => p.1 ≠ "y") = [] := by with_unfolding_all rfl
  have h3 : 0 < (validMask (⟨Dtype.num, [some (Sum.inl 1)]⟩ : Col).vals).count true := by
    with_unfolding_all decide
  exact ⟨h1, h2, h3, target_only_raises_dataError (fun _ _ => (1:ℚ))
    [("y", ⟨Dtype.num, [some (Sum.inl 1)]⟩)] "y" ImputeStrategy.mean "label"
    (5/100) (1/100) 10 5 ⟨Dtype.num, [some (Sum.inl 1)]⟩ h1 h2 h3⟩

/-! ## Claim C9: row counts and target pass-through -/

theorem lookup_dsTake (k : ℕ) (d : Dataset) (t : String) :
    List.lookup t (dsTake k d)
      = (List.lookup t d).map (fun c => ⟨c.dtype, c.vals.take k⟩) := by
  induction d with
  | nil => rfl
  | cons p ps ih =>
    simp only [dsTake, List.map_cons, List.lookup]
    cases h : t == p.1
    · simpa [h, dsTake] using ih
    · simp [h]

theorem lookup_dsDrop (k : ℕ) (d : Dataset) (t : String) :
    List.lookup t (dsDrop k d)
      = (List.lookup t d).map (fun c => ⟨c.dtype, c.vals.drop k⟩) := by
  induction d with
  | nil => rfl
  | cons p ps ih =>
    simp only [dsDrop, List.map_cons, List.lookup]
    cases h : t == p.1
    · simpa [h, dsDrop] using ih
    · simp [h]

theorem getCol_dsTake (k : ℕ) (d : Dataset) (t : String) :
    getCol (dsTake k d) t = (getCol d t).take k := by
  unfold getCol
  rw [lookup_dsTake]
  cases List.lookup t d <;> simp

theorem getCol_dsDrop (k : ℕ) (d : Dataset) (t : String) :
    getCol (dsDrop k d) t = (getCol d t).drop k := by
  unfold getCol
  rw [lookup_dsDrop]
  cases List.lookup t d <;> simp

theorem dsChunksF_getCol_flatten (t : String) (cs : ℕ) (hcs : 0 < cs) :
    ∀ (f n : ℕ) (d : Dataset), (getCol d t).length = n → n ≤ f →
    ((dsChunksF f cs n d).map (fun ch => getCol ch t)).flatten = getCol d t := by
  intro f
  induction f with
  | zero =>
    intro n d hlen hnf
    have hn : n = 0 := Nat.le_zero.1 hnf
    subst hn
    simp only [dsChunksF, List.map_nil, List.flatten_nil]
    exact (List.length_eq_zero.1 hlen).symm
  | succ f ih =>
    intro n d hlen hnf
    by_cases hn : n = 0
    · subst hn
      simp only [dsChunksF, if_pos rfl, List.map_nil, List.flatten_nil]
      exact (List.length_eq_zero.1 hlen).symm
    · simp only [dsChunksF, if_neg hn, List.map_cons, List.flatten_cons]
      rw [getCol_dsTake]
      have hlen2 : (getCol (dsDrop cs d) t).length = n - cs := by
        rw [getCol_dsDrop, List.length_drop, hlen]
      have hle2 : n - cs ≤ f := by omega
      rw [ih (n - cs) (dsDrop cs d) hlen2 hle2, getCol_dsDrop,
        List.take_append_drop]

theorem run_output_facts (miF : List ℚ → List ℚ → ℚ)
    (input : Dataset) (t : String) (ist : ImputeStrategy) (es : String)
    (r2T miT : ℚ) (sl cs : ℕ) (ycol : Col) (out : List OutChunk)
    (hcs : 0 < cs)
    (hy : List.lookup t input = some ycol)
    (hdone : (auto_prepare miF input t ist es r2T miT sl cs).2 = RunResult.done out) :
    (out.map OutChunk.target).flatten = ycol.vals
    ∧ (out.map (fun o => o.target.length)).sum = ycol.vals.length
    ∧ ((auto_prepare miF input t ist es r2T miT sl cs).1.filterMap rowsWritten).sum
        = ycol.vals.length := by
  rcases hf : fitPhase miF input t ist es r2T miT sl with ⟨evs, r⟩
  cases r with
  | error e =>
    exfalso
    have : RunResult.error e = RunResult.done out := by
      rw [← hdone]
      simp only [auto_prepare]
      rw [hf]
    exact RunResult.noConfusion this
  | ok pipe =>
    by_cases hsel : pipe.selected.isEmpty
    · exfalso
      have : RunResult.emptySelection = RunResult.done out := by
        rw [← hdone]
        simp only [auto_prepare]
        rw [hf]
        simp [hsel]
      exact RunResult.noConfusion this
    · have htgt : pipe.target = t :=
        fitPhase_ok_target miF input t ist es r2T miT sl evs pipe hf
      have hcolvals : getCol input t = ycol.vals := by
        unfold getCol
        rw [hy]
        rfl
      have hrun : auto_prepare miF input t ist es r2T miT sl cs
          = (evs ++ Event.openWriter ::
              ((dsChunks cs (getCol input pipe.target).length input).map
                (transformChunk pipe)).map (fun o => Event.writeChunk o.target.length),
             RunResult.done ((dsChunks cs (getCol input pipe.target).length input).map
                (transformChunk pipe))) := by
        simp only [auto_prepare]
        rw [hf]
        simp [hsel]
      have hout : out = (dsChunks cs (getCol input pipe.target).length input).map
          (transformChunk pipe) := by
        have h2 := congrArg Prod.snd hrun
        simp only [] at h2
        rw [hdone] at h2
        exact RunResult.done.inj h2
      have htc : ∀ ch, (transformChunk pipe ch).target = getCol ch t := by
        intro ch
        simp only [transformChunk]
        rw [htgt]
      have htargets : out.map OutChunk.target
          = (dsChunksF (getCol input t).length cs (getCol input t).length input).map
              (fun ch => getCol ch t) := by
        rw [hout, htgt, dsChunks, List.map_map]
        exact List.map_congr_left (fun ch _ => htc ch)
      have hflat : (out.map OutChunk.target).flatten = ycol.vals := by
        rw [htargets,
          dsChunksF_getCol_flatten t cs hcs (getCol input t).length
            (getCol input t).length input rfl (le_refl _),
          hcolvals]
      refine ⟨hflat, ?_, ?_⟩
      · have : out.map (fun o => o.target.length) = (out.map OutChunk.target).map
            List.length := by
          rw [List.map_map]
          rfl
        rw [this, ← List.length_flatten, hflat]
      · have hev : (auto_prepare miF input t ist es r2T miT sl cs).1
            = evs ++ Event.openWriter :: out.map (fun o => Event.writeChunk o.target.length) := by
          have h1 := congrArg Prod.fst hrun
          simp only [] at h1
          rw [h1, hout]
        rw [hev, List.filterMap_append]
        have hevs : evs.filterMap rowsWritten = [] := by
          rw [List.filterMap_eq_nil_iff]
          intro e he
          rcases fitPhase_events miF input t ist es r2T miT sl e
              (by rw [hf]; exact he) with h | h <;> subst h <;> rfl
        rw [hevs, List.nil_append]
        simp only [List.filterMap_cons]
        have : rowsWritten Event.openWriter = none := rfl
        rw [this]
        rw [List.filterMap_map]
        have hfm : (out.filterMap (rowsWritten ∘ fun o => Event.writeChunk o.target.length))
            = out.map (fun o => o.target.length) :=
          congrFun (List.filterMap_eq_map (fun o : OutChunk => o.target.length)) out
        rw [hfm]
        have : out.map (fun o => o.target.length) = (out.map OutChunk.target).map
            List.length := by
          rw [List.map_map]
          rfl
        rw [this, ← List.length_flatten, hflat]

/-- C9: when the run completes (result `done`), the concatenated target
column of the written chunks is exactly the input's target column —
every row's original target value is reattached unmodified, missing
values included, and no row is dropped — so the total written row count
(both as summed chunk sizes and as summed writer events) equals the
input row count. -/
theorem output_preserves_rows_and_target (miF : List ℚ → List ℚ → ℚ)
    (input : Dataset) (t : String) (ist : ImputeStrategy) (es : String)
    (r2T miT : ℚ) (sl cs : ℕ) (ycol : Col) (out : List OutChunk)
    (hcs : 0 < cs)
    (hy : List.lookup t input = some ycol)
    (hdone : (auto_prepare miF input t ist es r2T miT sl cs).2 = RunResult.done out) :
    (out.map OutChunk.target).flatten = ycol.vals
    ∧ (out.map (fun o => o.target.length)).sum = ycol.vals.length
    ∧ ((auto_prepare miF input t ist es r2T miT sl cs).1.filterMap rowsWritten).sum
        = ycol.vals.length :=
  run_output_facts miF input t ist es r2T miT sl cs ycol out hcs hy hdone

/-- Witness for C9: a three-row input (one row with a missing target)
processed in chunks of two writes 2 + 1 = 3 rows, and the concatenated
output target equals the input target, missing value included. -/
theorem output_preserves_rows_and_target_witness :
    (0 < 2)
    ∧ List.lookup "y"
        ([("x", ⟨Dtype.num, [some (Sum.inl 1), some (Sum.inl 2), some (Sum.inl 3)]⟩),
          ("y", ⟨Dtype.num, [some (Sum.inl 1), none, some (Sum.inl 3)]⟩)] : Dataset)
        = some (⟨Dtype.num, [some (Sum.inl 1), none, some (Sum.inl 3)]⟩ : Col)
    ∧ (auto_prepare (fun _ _ => (1:ℚ))
        [("x", ⟨Dtype.num, [some (Sum.inl 1), some (Sum.inl 2), some (Sum.inl 3)]⟩),
         ("y", ⟨Dtype.num, [some (Sum.inl 1), none, some (Sum.inl 3)]⟩)]
        "y" ImputeStrategy.mean "label" (5/100) 0 10 2).2
      = RunResult.done
          [⟨[("x", [1, 2])], [some (Sum.inl 1), none]⟩,
           ⟨[("x", [3])], [some (Sum.inl 3)]⟩]
    ∧ (([⟨[("x", [1, 2])], [some (Sum.inl 1), none]⟩,
         ⟨[("x", [3])], [some (Sum.inl 3)]⟩] : List OutChunk).map OutChunk.target).flatten
        = [some (Sum.inl 1), none, some (Sum.inl 3)]
    ∧ (([⟨[("x", [1, 2])], [some (Sum.inl 1), none]⟩,
         ⟨[("x", [3])], [some (Sum.inl 3)]⟩] : List OutChunk).map
          (fun o => o.target.length)).sum = 3
    ∧ ((auto_prepare (fun _ _ => (1:ℚ))
        [("x", ⟨Dtype.num, [some (Sum.inl 1), some (Sum.inl 2), some (Sum.inl 3)]⟩),
         ("y", ⟨Dtype.num, [some (Sum.inl 1), none, some (Sum.inl 3)]⟩)]
        "y" ImputeStrategy.mean "label" (5/100) 0 10 2).1.filterMap rowsWritten).sum = 3 := by
  have hy : List.lookup "y"
      ([("x", ⟨Dtype.num, [some (Sum.inl 1), some (Sum.inl 2), some (Sum.inl 3)]⟩),
        ("y", ⟨Dtype.num, [some (Sum.inl 1), none, some (Sum.inl 3)]⟩)] : Dataset)
      = some (⟨Dtype.num, [some (Sum.inl 1), none, some (Sum.inl 3)]⟩ : Col) := by
    with_unfolding_all rfl
  have hdone : (auto_prepare (fun _ _ => (1:ℚ))
      [("x", ⟨Dtype.num, [some (Sum.inl 1), some (Sum.inl 2), some (Sum.inl 3)]⟩),
       ("y", ⟨Dtype.num, [some (Sum.inl 1), none, some (Sum.inl 3)]⟩)]
      "y" ImputeStrategy.mean "label" (5/100) 0 10 2).2
      = RunResult.done
          [⟨[("x", [1, 2])], [some (Sum.inl 1), none]⟩,
           ⟨[("x", [3])], [some (Sum.inl 3)]⟩] := by
    with_unfolding_all rfl
  have h := output_preserves_rows_and_target (fun _ _ => (1:ℚ))
    [("x", ⟨Dtype.num, [some (Sum.inl 1), some (Sum.inl 2), some (Sum.inl 3)]⟩),
     ("y", ⟨Dtype.num, [some (Sum.inl 1), none, some (Sum.inl 3)]⟩)]
    "y" ImputeStrategy.mean "label" (5/100) 0 10 2
    ⟨Dtype.num, [some (Sum.inl 1), none, some (Sum.inl 3)]⟩
    [⟨[("x", [1, 2])], [some (Sum.inl 1), none]⟩,
     ⟨[("x", [3])], [some (Sum.inl 3)]⟩]
    (by norm_num) hy hdone
  exact ⟨by norm_num, hy, hdone, h.1, h.2.1, h.2.2⟩

/-! ## Claim C4: string order machinery -/

theorem charLtB_iff (c d : Char) : charLtB c d = true ↔ c.toNat < d.toNat := by
  unfold charLtB
  rw [Nat.blt_eq]

theorem charLtB_false_iff (c d : Char) : charLtB c d = false ↔ ¬ c.toNat < d.toNat := by
  rw [← Bool.not_eq_true, charLtB_iff]

theorem char_eq_of_not_ltB {c d : Char} (h1 : charLtB c d = false)
    (h2 : charLtB d c = false) : c = d := by
  rw [charLtB_false_iff] at h1 h2
  have h3 : c.toNat = d.toNat := Nat.le_antisymm (Nat.not_lt.1 h2) (Nat.not_lt.1 h1)
  exact Char.ext (UInt32.toNat.inj h3)

theorem charListLeB_refl (l : List Char) : charListLeB l l = true := by
  induction l with
  | nil => rfl
  | cons c cs ih =>
    have hcc : charLtB c c = false := by
      rw [charLtB_false_iff]
      exact Nat.lt_irrefl _
    simp [charListLeB, hcc, ih]

theorem charListLeB_total (l1 : List Char) : ∀ l2,
    charListLeB l1 l2 = true ∨ charListLeB l2 l1 = true := by
  induction l1 with
  | nil => intro l2; exact Or.inl rfl
  | cons c cs ih =>
    intro l2
    cases l2 with
    | nil => exact Or.inr rfl
    | cons d ds =>
      by_cases h1 : charLtB c d = true
      · exact Or.inl (by simp [charListLeB, h1])
      · by_cases h2 : charLtB d c = true
        · exact Or.inr (by simp [charListLeB, h2])
        · have hcd : c = d := char_eq_of_not_ltB
            (Bool.not_eq_true _ ▸ h1) (Bool.not_eq_true _ ▸ h2)
          subst hcd
          have hcc : charLtB c c = false := by
            rw [charLtB_false_iff]
            exact Nat.lt_irrefl _
          rcases ih ds with h | h
          · exact Or.inl (by simp [charListLeB, hcc, h])
          · exact Or.inr (by simp [charListLeB, hcc, h])

theorem charListLeB_trans (l1 : List Char) : ∀ l2 l3,
    charListLeB l1 l2 = true → charListLeB l2 l3 = true →
    charListLeB l1 l3 = true := by
  induction l1 with
  | nil => intro l2 l3 _ _; rfl
  | cons c cs ih =>
    intro l2 l3 h1 h2
    cases l2 with
    | nil => simp [charListLeB] at h1
    | cons d ds =>
      cases l3 with
      | nil => simp [charListLeB] at h2
      | cons e es =>
        by_cases hcd : charLtB c d = true
        · by_cases hde : charLtB d e = true
          · have hce : charLtB c e = true := by
              rw [charLtB_iff] at hcd hde ⊢
              exact Nat.lt_trans hcd hde
            simp [charListLeB, hce]
          · by_cases hed : charLtB e d = true
            · simp [charListLeB, hde, hed] at h2
            · have hde2 : d = e := char_eq_of_not_ltB
                (Bool.not_eq_true _ ▸ hde) (Bool.not_eq_true _ ▸ hed)
              subst hde2
              simp [charListLeB, hcd]
        · by_cases hdc : charLtB d c = true
          · simp [charListLeB, hcd, hdc] at h1
          · have hcd2 : c = d := char_eq_of_not_ltB
              (Bool.not_eq_true _ ▸ hcd) (Bool.not_eq_true _ ▸ hdc)
            subst hcd2
            have hcc : charLtB c c = false := by
              rw [charLtB_false_iff]
              exact Nat.lt_irrefl _
            simp only [charListLeB, hcc, Bool.false_eq_true, if_false] at h1 h2 ⊢
            by_cases hce : charLtB c e = true
            · simp [hce]
            · by_cases hec : charLtB e c = true
              · simp [hec, hce] at h2
              · simp only [hce, Bool.false_eq_true, if_false, hec] at h2 ⊢
                exact ih _ _ h1 h2

theorem charListLeB_antisymm (l1 : List Char) : ∀ l2,
    charListLeB l1 l2 = true → charListLeB l2 l1 = true → l1 = l2 := by
  induction l1 with
  | nil =>
    intro l2 _ h2
    cases l2 with
    | nil => rfl
    | cons d ds => simp [charListLeB] at h2
  | cons c cs ih =>
    intro l2 h1 h2
    cases l2 with
    | nil => simp [charListLeB] at h1
    | cons d ds =>
      by_cases hcd : charLtB c d = true
      · have hdc : charLtB d c = false := by
          rw [charLtB_false_iff]
          rw [charLtB_iff] at hcd
          exact Nat.lt_asymm hcd
        simp [charListLeB, hdc, hcd] at h2
      · by_cases hdc : charLtB d c = true
        · simp [charListLeB, hcd, hdc] at h1
        · have hcd2 : c = d := char_eq_of_not_ltB
            (Bool.not_eq_true _ ▸ hcd) (Bool.not_eq_true _ ▸ hdc)
          subst hcd2
          have hcc : charLtB c c = false := by
            rw [charLtB_false_iff]
            exact Nat.lt_irrefl _
          simp only [charListLeB, hcc, Bool.false_eq_true, if_false] at h1 h2
          rw [ih ds h1 h2]

theorem strLeB_refl (a : String) : strLeB a a = true :=
  charListLeB_refl _

theorem strLeB_total (a b : String) : strLeB a b = true ∨ strLeB b a = true :=
  charListLeB_total _ _

theorem strLeB_trans {a b c : String} (h1 : strLeB a b = true)
    (h2 : strLeB b c = true) : strLeB a c = true :=
  charListLeB_trans _ _ _ h1 h2

theorem strLeB_antisymm {a b : String} (h1 : strLeB a b = true)
    (h2 : strLeB b a = true) : a = b :=
  congrArg String.mk (charListLeB_antisymm _ _ h1 h2)

theorem strLtB_irrefl (a : String) : strLtB a a = false := by
  simp [strLtB, strLeB_refl]

theorem mem_orderedInsertStr (s x : String) (l : List String) :
    x ∈ orderedInsertStr s l ↔ x = s ∨ x ∈ l := by
  induction l with
  | nil => simp [orderedInsertStr]
  | cons t ts ih =>
    unfold orderedInsertStr
    by_cases hst : strLeB s t = true
    · rw [if_pos hst]
      simp [List.mem_cons]
    · rw [if_neg hst]
      simp only [List.mem_cons, ih]
      tauto

theorem orderedInsertStr_pairwise (s : String) (l : List String)
    (h : l.Pairwise (fun a b => strLeB a b = true)) :
    (orderedInsertStr s l).Pairwise (fun a b => strLeB a b = true) := by
  induction l with
  | nil => simp [orderedInsertStr]
  | cons t ts ih =>
    rcases List.pairwise_cons.1 h with ⟨ht, hts⟩
    unfold orderedInsertStr
    by_cases hst : strLeB s t = true
    · rw [if_pos hst]
      refine List.pairwise_cons.2 ⟨?_, h⟩
      intro b hb
      rcases List.mem_cons.1 hb with rfl | hb
      · exact hst
      · exact strLeB_trans hst (ht b hb)
    · rw [if_neg hst]
      refine List.pairwise_cons.2 ⟨?_, ih hts⟩
      intro b hb
      rcases (mem_orderedInsertStr s b ts).1 hb with rfl | hb
      · rcases strLeB_total t b with h2 | h2
        · exact h2
        · exact absurd h2 hst
      · exact ht b hb

theorem sortStrs_pairwise (l : List String) :
    (sortStrs l).Pairwise (fun a b => strLeB a b = true) := by
  induction l with
  | nil => simp [sortStrs]
  | cons s ss ih => exact orderedInsertStr_pairwise s _ ih

theorem orderedInsertStr_perm (s : String) (l : List String) :
    List.Perm (orderedInsertStr s l) (s :: l) := by
  induction l with
  | nil => exact List.Perm.refl _
  | cons t ts ih =>
    unfold orderedInsertStr
    by_cases hst : strLeB s t = true
    · rw [if_pos hst]
    · rw [if_neg hst]
      exact (ih.cons t).trans (List.Perm.swap s t ts)

theorem sortStrs_perm (l : List String) : List.Perm (sortStrs l) l := by
  induction l with
  | nil => exact List.Perm.refl _
  | cons s ss ih => exact (orderedInsertStr_perm s _).trans (ih.cons s)

theorem sortedUnique_pairwise (l : List String) :
    (sortedUnique l).Pairwise (fun a b => strLeB a b = true) :=
  sortStrs_pairwise _

theorem sortedUnique_nodup (l : List String) : (sortedUnique l).Nodup :=
  ((sortStrs_perm l.dedup).nodup_iff).2 l.nodup_dedup

theorem mem_sortedUnique {s : String} {l : List String} :
    s ∈ sortedUnique l ↔ s ∈ l :=
  (sortStrs_perm l.dedup).mem_iff.trans List.mem_dedup

theorem indexOf_sorted_eq_filter_length (L : List String)
    (hp : L.Pairwise (fun a b => strLeB a b = true)) (hn : L.Nodup) :
    ∀ s ∈ L, L.indexOf s = (L.filter (fun u => strLtB u s)).length := by
  induction L with
  | nil => intro s hs; cases hs
  | cons a tl ih =>
    intro s hs
    rcases List.pairwise_cons.1 hp with ⟨ha, hp2⟩
    rcases List.nodup_cons.1 hn with ⟨hna, hn2⟩
    by_cases hsa : s = a
    · subst hsa
      rw [List.indexOf_cons_self]
      have h1 : strLtB s s = false := strLtB_irrefl s
      have h2 : tl.filter (fun u => strLtB u s) = [] := by
        rw [List.filter_eq_nil_iff]
        intro u hu
        simp [strLtB, ha u hu]
      simp [List.filter_cons, h1, h2]
    · have hstl : s ∈ tl := (List.mem_cons.1 hs).resolve_left hsa
      rw [List.indexOf_cons_ne _ (Ne.symm hsa)]
      have h1 : strLtB a s = true := by
        have h2 : strLeB s a = false := by
          cases h3 : strLeB s a
          · rfl
          · exact absurd (strLeB_antisymm h3 (ha s hstl)) hsa
        simp [strLtB, h2]
      rw [List.filter_cons, if_pos (by simp [h1]), List.length_cons,
        ih hp2 hn2 s hstl]

theorem sortedUnique_indexOf_eq (l : List String) (s : String) (hs : s ∈ l) :
    (sortedUnique l).indexOf s = (l.dedup.filter (fun u => strLtB u s)).length := by
  rw [indexOf_sorted_eq_filter_length (sortedUnique l) (sortedUnique_pairwise l)
      (sortedUnique_nodup l) s (mem_sortedUnique.2 hs)]
  exact ((sortStrs_perm l.dedup).filter _).length_eq

theorem evalTarget_cat_getElem (yvalid : List Cell) (i : ℕ) (s : String)
    (hs : (yvalid.map cellStr)[i]? = some s) :
    (evalTarget Dtype.cat yvalid)[i]?
      = some ((((yvalid.map cellStr).dedup.filter
          (fun u => strLtB u s)).length : ℚ)) := by
  have hmem : s ∈ yvalid.map cellStr := List.getElem?_mem hs
  simp only [evalTarget]
  rw [List.getElem?_map, hs]
  simp only [Option.map_some']
  rw [sortedUnique_indexOf_eq _ s hmem]

/-- C4, counterexample: the scoring-step label encoding of the target
is not by first-seen order.  On the target values ["b", "a"] the code's
`LabelEncoder` (sorted distinct values, as `evalTarget` embeds) yields
[1, 0], while first-seen-order encoding yields [0, 1]. -/
theorem first_seen_encoding_cex :
    evalTarget Dtype.cat [some (Sum.inr "b"), some (Sum.inr "a")] = [1, 0]
    ∧ firstSeenLabelEncode
        (([some (Sum.inr "b"), some (Sum.inr "a")] : List Cell).map cellStr) = [0, 1]
    ∧ evalTarget Dtype.cat [some (Sum.inr "b"), some (Sum.inr "a")]
        ≠ firstSeenLabelEncode
            (([some (Sum.inr "b"), some (Sum.inr "a")] : List Cell).map cellStr) := by
  have h1 : evalTarget Dtype.cat [some (Sum.inr "b"), some (Sum.inr "a")] = [1, 0] := by
    with_unfolding_all rfl
  have h2 : firstSeenLabelEncode
      (([some (Sum.inr "b"), some (Sum.inr "a")] : List Cell).map cellStr) = [0, 1] := by
    with_unfolding_all rfl
  refine ⟨h1, h2, ?_⟩
  intro h
  rw [h1, h2] at h
  have h3 : (1 : ℚ) = 0 := by
    injection h
  norm_num at h3

/-- C4, amended: when the sample's target column is non-numeric, the
target used solely for the feature-scoring step is label-encoded
deterministically by SORTED order of the distinct string values — each
value's code is the number of distinct target strings strictly smaller
than it (code-point order), not its first-seen rank — and the original
unencoded target values are still written to output unchanged. -/
theorem cat_target_sorted_encoding_and_passthrough (miF : List ℚ → List ℚ → ℚ)
    (input : Dataset) (t : String) (ist : ImputeStrategy) (es : String)
    (r2T miT : ℚ) (sl cs : ℕ) (ycol : Col) (out : List OutChunk)
    (hy : List.lookup t input = some ycol)
    (hcat : ycol.dtype = Dtype.cat)
    (hcs : 0 < cs)
    (hdone : (auto_prepare miF input t ist es r2T miT sl cs).2 = RunResult.done out) :
    (∀ (i : ℕ) (s : String),
      ((applyMask (validMask (ycol.vals.take sl)) (ycol.vals.take sl)).map
          cellStr)[i]? = some s →
      (evalTarget ycol.dtype
          (applyMask (validMask (ycol.vals.take sl)) (ycol.vals.take sl)))[i]?
        = some ((((applyMask (validMask (ycol.vals.take sl))
              (ycol.vals.take sl)).map cellStr).dedup.filter
            (fun u => strLtB u s)).length : ℚ))
    ∧ (out.map OutChunk.target).flatten = ycol.vals := by
  refine ⟨?_, (run_output_facts miF input t ist es r2T miT sl cs ycol out hcs hy hdone).1⟩
  intro i s hs
  rw [hcat]
  exact evalTarget_cat_getElem _ i s hs

/-- Witness for the amended C4: a completed run with the string target
["b", "a"]; the scoring vector holds 1 at position 0 (one distinct
value below "b") and the output target is the original strings. -/
theorem cat_target_sorted_encoding_witness :
    List.lookup "y"
        ([("x", ⟨Dtype.num, [some (Sum.inl 1), some (Sum.inl 2)]⟩),
          ("y", ⟨Dtype.cat, [some (Sum.inr "b"), some (Sum.inr "a")]⟩)] : Dataset)
      = some (⟨Dtype.cat, [some (Sum.inr "b"), some (Sum.inr "a")]⟩ : Col)
    ∧ (auto_prepare (fun _ _ => (1:ℚ))
        [("x", ⟨Dtype.num, [some (Sum.inl 1), some (Sum.inl 2)]⟩),
         ("y", ⟨Dtype.cat, [some (Sum.inr "b"), some (Sum.inr "a")]⟩)]
        "y" ImputeStrategy.mean "label" (5/100) 0 10 5).2
      = RunResult.done [⟨[("x", [1, 2])], [some (Sum.inr "b"), some (Sum.inr "a")]⟩]
    ∧ (evalTarget (⟨Dtype.cat, [some (Sum.inr "b"), some (Sum.inr "a")]⟩ : Col).dtype
        (applyMask
          (validMask ((⟨Dtype.cat, [some (Sum.inr "b"), some (Sum.inr "a")]⟩ : Col).vals.take 10))
          ((⟨Dtype.cat, [some (Sum.inr "b"), some (Sum.inr "a")]⟩ : Col).vals.take 10)))[0]?
      = some (1 : ℚ)
    ∧ (([⟨[("x", [1, 2])], [some (Sum.inr "b"), some (Sum.inr "a")]⟩] : List OutChunk).map
        OutChunk.target).flatten = [some (Sum.inr "b"), some (Sum.inr "a")] := by
  have hy : List.lookup "y"
      ([("x", ⟨Dtype.num, [some (Sum.inl 1), some (Sum.inl 2)]⟩),
        ("y", ⟨Dtype.cat, [some (Sum.inr "b"), some (Sum.inr "a")]⟩)] : Dataset)
      = some (⟨Dtype.cat, [some (Sum.inr "b"), some (Sum.inr "a")]⟩ : Col) := by
    with_unfolding_all rfl
  have hdone : (auto_prepare (fun _ _ => (1:ℚ))
      [("x", ⟨Dtype.num, [some (Sum.inl 1), some (Sum.inl 2)]⟩),
       ("y", ⟨Dtype.cat, [some (Sum.inr "b"), some (Sum.inr "a")]⟩)]
      "y" ImputeStrategy.mean "label" (5/100) 0 10 5).2
      = RunResult.done [⟨[("x", [1, 2])], [some (Sum.inr "b"), some (Sum.inr "a")]⟩] := by
    with_unfolding_all rfl
  have h := cat_target_sorted_encoding_and_passthrough (fun _ _ => (1:ℚ))
    [("x", ⟨Dtype.num, [some (Sum.inl 1), some (Sum.inl 2)]⟩),
     ("y", ⟨Dtype.cat, [some (Sum.inr "b"), some (Sum.inr "a")]⟩)]
    "y" ImputeStrategy.mean "label" (5/100) 0 10 5
    ⟨Dtype.cat, [some (Sum.inr "b"), some (Sum.inr "a")]⟩
    [⟨[("x", [1, 2])], [some (Sum.inr "b"), some (Sum.inr "a")]⟩]
    hy rfl (by norm_num) hdone
  have ha := h.1 0 "b" (by with_unfolding_all rfl)
  refine ⟨hy, hdone, ?_, h.2⟩
  rw [ha]
  with_unfolding_all rfl
